import Mathlib

/-!
Shallow embedding of the MenuLens order and bill-splitting state engine,
the menu filtering logic and the persistence bridge, translated from
`src/App.tsx`, `src/components/MenuGrid.tsx` and the order modal
component (`src/unnamed/part_000`).

Modelling conventions: a JavaScript `Map<string, number>` is an
association list in insertion order; JavaScript numbers are rationals;
JSON values are an inductive type, and the stored slot string is
abstracted by its parse outcome (absent, malformed, or a JSON value).
-/

/-- Type of a parsed menu item (`MenuItem` in `types.ts`).  Optional fields
are `Option`s; `tags` is `undefined` or an array of free-text labels. -/
structure MenuItem where
  originalName : String
  translatedName : String
  description : String
  translatedDescription : String
  price : Option String := none
  category : Option String := none
  tags : Option (List String) := none
deriving Repr, DecidableEq

/-- Ledger type: the `order` state of `App.tsx`, a JavaScript
`Map<string, number>` from dish identity to quantity, kept in insertion
order. -/
abbrev Ledger := List (String × ℚ)

/-- Semantics of `Map.get`: the value of the entry with the given key. -/
def mapGet (m : Ledger) (k : String) : Option ℚ :=
  (m.find? (fun p => p.1 == k)).map (·.2)

/-- Semantics of `Map.set`: update in place when the key is present
(keeping its position), otherwise append a fresh entry at the end. -/
def mapSet (m : Ledger) (k : String) (v : ℚ) : Ledger :=
  match m with
  | [] => [(k, v)]
  | (k', v') :: rest =>
    if k' == k then (k, v) :: rest else (k', v') :: mapSet rest k v

/-- Semantics of `Map.delete`: remove the entry with the given key. -/
def mapDelete (m : Ledger) (k : String) : Ledger :=
  match m with
  | [] => []
  | (k', v') :: rest =>
    if k' == k then rest else (k', v') :: mapDelete rest k

/-- Semantics of `new Map(entries)`: fold `Map.set` over the entry list,
starting from the empty map. -/
def mapFromList (l : List (String × ℚ)) : Ledger :=
  l.foldl (fun m p => mapSet m p.1 p.2) []

/-- Translation of `handleUpdateOrder` (`App.tsx` lines 86 to 94): read the
current quantity (0 when absent), add the delta, and delete the entry when
the result is at most 0, otherwise store the result. -/
def handleUpdateOrder (order : Ledger) (name : String) (delta : ℚ) : Ledger :=
  let currentQty := (mapGet order name).getD 0
  let qty := currentQty + delta
  if qty ≤ 0 then mapDelete order name else mapSet order name qty

/-- Translation of `totalItems` (`App.tsx` line 97): the sum of all
quantities of the ledger, computed as a left fold of addition over the
values of the map. -/
def totalItems (order : Ledger) : ℚ :=
  (order.map Prod.snd).foldl (· + ·) 0

/-- Greedy match of the regular expression `\d+\.?\d*` at a position whose
first character is a digit: all digits, then at most one dot, then all
following digits. -/
def matchNumAt (s : List Char) : List Char :=
  let ds := s.takeWhile Char.isDigit
  match s.dropWhile Char.isDigit with
  | '.' :: r => ds ++ '.' :: r.takeWhile Char.isDigit
  | _ => ds

/-- First match of the regular expression `/(\d+\.?\d*)/` in a character
list: scan left to right for the first digit and match greedily there. -/
def findNumMatch : List Char → Option (List Char)
  | [] => none
  | c :: rest =>
    if c.isDigit then some (matchNumAt (c :: rest)) else findNumMatch rest

/-- Numeric value of a list of decimal digit characters. -/
def digitsToNat (ds : List Char) : Nat :=
  ds.foldl (fun n c => 10 * n + (c.toNat - '0'.toNat)) 0

/-- Value of `parseFloat` on a matched string of shape
`digits` or `digits.digits`. -/
def parseDecimal (cs : List Char) : ℚ :=
  let ip := cs.takeWhile Char.isDigit
  let fp := match cs.dropWhile Char.isDigit with
    | '.' :: r => r.takeWhile Char.isDigit
    | _ => []
  (digitsToNat ip : ℚ) + (digitsToNat fp : ℚ) / (10 : ℚ) ^ fp.length

/-- Translation of the price extraction in `cartTotal` (`part_000` lines
31 to 32): `price.match(/(\d+\.?\d*)/)` followed by `parseFloat`, with 0
when there is no match. -/
def priceToNumber (p : String) : ℚ :=
  match findNumMatch p.data with
  | none => 0
  | some m => parseDecimal m

/-- Translation of `cartItems` (`part_000` lines 23 to 26): resolve each
ledger entry against the catalog by `originalName` and drop the entries
whose dish is missing. -/
def cartItems (order : Ledger) (menuItems : List MenuItem) :
    List (MenuItem × ℚ × String) :=
  (order.map (fun p =>
    (menuItems.find? (fun m => m.originalName == p.1), p.2, p.1))).filterMap
    (fun t => t.1.map (fun i => (i, t.2.1, t.2.2)))

/-- Translation of `cartTotal` (`part_000` lines 29 to 34): skip cart items
whose price is `undefined` or the empty string (JavaScript falsiness of
`item?.price`), otherwise accumulate the parsed price times the
quantity. -/
def cartTotal (order : Ledger) (menuItems : List MenuItem) : ℚ :=
  (cartItems order menuItems).foldl
    (fun sum t =>
      match t.1.price with
      | none => sum
      | some p => if p == "" then sum else sum + priceToNumber p * t.2.1) 0

/-- Translation of `replace(/\d|\.| /g, '')` in `part_000` line 49: strip
digits, dots and spaces from a price string. -/
def stripPriceChars (p : String) : String :=
  ⟨p.data.filter (fun c => !(c.isDigit || c == '.' || c == ' '))⟩

/-- Translation of `currencySymbol` (`part_000` line 49):
`cartItems[0]?.item?.price?.replace(/\d|\.| /g, '') || '$'`.  The dollar
fallback fires when there is no cart item, when the first cart item has no
price, and when stripping leaves the empty string. -/
def currencySymbol (order : Ledger) (menuItems : List MenuItem) : String :=
  match cartItems order menuItems with
  | [] => "$"
  | t :: _ =>
    match t.1.price with
    | none => "$"
    | some p => if stripPriceChars p == "" then "$" else stripPriceChars p

/-- Translation of `tipAmount` (`part_000` line 53). -/
def tipAmount (billBase tipPercent : ℚ) : ℚ :=
  billBase * (tipPercent / 100)

/-- Translation of `finalTotal` (`part_000` line 54), the grand total. -/
def finalTotal (billBase tipPercent : ℚ) : ℚ :=
  billBase + tipAmount billBase tipPercent

/-- Translation of `splitBy = Math.max(1, splitCount)` (`part_000`
line 57). -/
def splitBy (splitCount : ℤ) : ℤ :=
  max 1 splitCount

/-- Translation of `perPersonTotal` (`part_000` line 58). -/
def perPersonTotal (billBase tipPercent : ℚ) (splitCount : ℤ) : ℚ :=
  finalTotal billBase tipPercent / (splitBy splitCount : ℚ)

/-- Translation of `perPersonBill` (`part_000` line 59). -/
def perPersonBill (billBase : ℚ) (splitCount : ℤ) : ℚ :=
  billBase / (splitBy splitCount : ℚ)

/-- Translation of `perPersonTip` (`part_000` line 60). -/
def perPersonTip (billBase tipPercent : ℚ) (splitCount : ℤ) : ℚ :=
  tipAmount billBase tipPercent / (splitBy splitCount : ℚ)

/-- State of the four filter toggles of `MenuGrid.tsx` (lines 15 to 20). -/
structure FilterState where
  vegetarian : Bool
  nutAllergy : Bool
  noPork : Bool
  spicy : Bool
deriving Repr, DecidableEq

/-- Translation of `hasTag` (`MenuGrid.tsx` line 45):
`item.tags?.includes(tag)`, false when `tags` is `undefined`. -/
def hasTag (item : MenuItem) (tag : String) : Bool :=
  (item.tags.getD []).contains tag

/-- Translation of `isVeg` (`MenuGrid.tsx` line 125). -/
def isVeg (item : MenuItem) : Bool :=
  hasTag item "Vegetarian" || hasTag item "Vegan"

/-- Translation of `isDimmed` (`MenuGrid.tsx` line 131). -/
def isDimmed (fs : FilterState) (item : MenuItem) : Bool :=
  fs.vegetarian && !(isVeg item)

/-- Translation of `showNutWarning` (`MenuGrid.tsx` line 134). -/
def showNutWarning (fs : FilterState) (item : MenuItem) : Bool :=
  fs.nutAllergy && hasTag item "Contains Nuts"

/-- Translation of `showPorkWarning` (`MenuGrid.tsx` line 135). -/
def showPorkWarning (fs : FilterState) (item : MenuItem) : Bool :=
  fs.noPork && hasTag item "Contains Pork"

/-- Translation of the combined warning verdict of `MenuGrid.tsx` line 136
(named `isUnsafe` in the source). -/
def hasWarning (fs : FilterState) (item : MenuItem) : Bool :=
  showNutWarning fs item || showPorkWarning fs item

/-- Translation of `highlightSpicy` (`MenuGrid.tsx` line 139). -/
def highlightSpicy (fs : FilterState) (item : MenuItem) : Bool :=
  fs.spicy && hasTag item "Spicy"

/-- Translation of the warning badge (`MenuGrid.tsx` lines 155 to 160): a
single badge, shown only on the combined warning verdict, whose text is
`showNutWarning ? 'CONTAINS NUTS' : 'CONTAINS PORK'`. -/
def warningBadge (fs : FilterState) (item : MenuItem) : Option String :=
  if hasWarning fs item then
    some (if showNutWarning fs item then "CONTAINS NUTS" else "CONTAINS PORK")
  else none

/-- Values of JSON, with numbers modelled as rationals. -/
inductive Json where
  | null : Json
  | bool : Bool → Json
  | num : ℚ → Json
  | str : String → Json
  | arr : List Json → Json
  | obj : List (String × Json) → Json
deriving Repr

/-- Member access `parsed.field` on a parsed JSON value; `none` stands for
the JavaScript `undefined` (absent member, or access on a non-object). -/
def getField (j : Json) (name : String) : Option Json :=
  match j with
  | .obj fields => (fields.find? (fun p => p.1 == name)).map (·.2)
  | _ => none

/-- View of a JSON value as a string. -/
def asStr : Json → Option String
  | .str s => some s
  | _ => none

/-- View of a JSON value as an array. -/
def asArr : Json → Option (List Json)
  | .arr xs => some xs
  | _ => none

/-- JavaScript truthiness of `v?.length` for a JSON value `v`: truthy only
for a non-empty array or a non-empty string (`length` is `undefined` on the
other values). -/
def lengthTruthy : Json → Bool
  | .arr xs => !xs.isEmpty
  | .str s => !(s == "")
  | _ => false

/-- JavaScript falsiness of a JSON value, for the `if (parsed.order)`
guard. -/
def jsFalsy : Json → Bool
  | .null => true
  | .bool b => !b
  | .num q => q == 0
  | .str s => s == ""
  | _ => false

/-- Serialization of a `MenuItem` by `JSON.stringify`: fields in
declaration order, with `undefined` optional fields omitted. -/
def encodeMenuItem (m : MenuItem) : Json :=
  .obj ([("originalName", .str m.originalName),
         ("translatedName", .str m.translatedName),
         ("description", .str m.description),
         ("translatedDescription", .str m.translatedDescription)]
    ++ (match m.price with | some p => [("price", .str p)] | none => [])
    ++ (match m.category with | some c => [("category", .str c)] | none => [])
    ++ (match m.tags with
        | some ts => [("tags", .arr (ts.map .str))]
        | none => []))

/-- Data of a persisted snapshot: the fields the save effect of `App.tsx`
serializes and the load effect restores. -/
structure Snapshot where
  menuItems : List MenuItem
  restaurantName : String
  restaurantLocation : String
  order : List (String × ℚ)
deriving Repr, DecidableEq

/-- Serialization of the object written by the save effect (`App.tsx`
lines 45 to 54): `{menuItems, restaurantName, restaurantLocation,
order: Array.from(order.entries())}`. -/
def encodeSnapshot (s : Snapshot) : Json :=
  .obj [("menuItems", .arr (s.menuItems.map encodeMenuItem)),
        ("restaurantName", .str s.restaurantName),
        ("restaurantLocation", .str s.restaurantLocation),
        ("order", .arr (s.order.map (fun p => .arr [.str p.1, .num p.2])))]

/-- Decoding of each element of a JSON array, failing when any element
fails. -/
def decodeList (f : Json → Option α) : List Json → Option (List α)
  | [] => some []
  | j :: rest =>
    match f j, decodeList f rest with
    | some x, some xs => some (x :: xs)
    | _, _ => none

/-- Interpretation of a JSON value as a `MenuItem` for the typed model.
The load effect of `App.tsx` performs no per-item validation
(`setMenuItems(parsed.menuItems)` stores the parsed array as is); this
decoder realizes the intended reading of that array into the typed
state. -/
def decodeMenuItem (j : Json) : Option MenuItem := do
  let nm ← (getField j "originalName").bind asStr
  let tn ← (getField j "translatedName").bind asStr
  let de ← (getField j "description").bind asStr
  let td ← (getField j "translatedDescription").bind asStr
  let price := (getField j "price").bind asStr
  let category := (getField j "category").bind asStr
  let tags := (getField j "tags").bind
    (fun t => (asArr t).bind (decodeList asStr))
  pure ⟨nm, tn, de, td, price, category, tags⟩

/-- Decoding of one entry of the persisted `order` array: a two-element
array of a key string and a quantity number, as written by
`Array.from(order.entries())`. -/
def decodeOrderEntry (j : Json) : Option (String × ℚ) :=
  match j with
  | .arr [.str k, .num v] => some (k, v)
  | _ => none

/-- Content of the `menuLensState` localStorage slot, with the string level
abstracted by its `JSON.parse` outcome: absent, unparseable, or a JSON
value. -/
inductive SlotContent where
  | absent : SlotContent
  | malformed : SlotContent
  | wellFormed : Json → SlotContent

/-- Outcome of the load effect: either no prior session, or the hydrated
snapshot. -/
inductive LoadResult where
  | noSession : LoadResult
  | loaded : Snapshot → LoadResult

/-- Truthiness of `parsed.menuItems?.length`, the guard of the load effect
(`App.tsx` line 32). -/
def menuItemsOk (j : Json) : Bool :=
  match getField j "menuItems" with
  | some v => lengthTruthy v
  | none => false

/-- Hydration of the typed state from a parsed snapshot object, following
the load effect (`App.tsx` lines 33 to 36): the menu item array as is,
`parsed.restaurantName || ''` and `parsed.restaurantLocation || ''`, and
`new Map(parsed.order)` only when `parsed.order` is truthy (the order
otherwise stays at its initial empty value).  A `none` result stands for a
thrown exception during hydration. -/
def decodeState (j : Json) : Option Snapshot :=
  match (getField j "menuItems").bind asArr with
  | none => none
  | some itemsJ =>
    match decodeList decodeMenuItem itemsJ with
    | none => none
    | some items =>
      let name := ((getField j "restaurantName").bind asStr).getD ""
      let loc := ((getField j "restaurantLocation").bind asStr).getD ""
      match getField j "order" with
      | none => some ⟨items, name, loc, []⟩
      | some o =>
        if jsFalsy o then some ⟨items, name, loc, []⟩
        else
          match (asArr o).bind (decodeList decodeOrderEntry) with
          | none => none
          | some entries => some ⟨items, name, loc, mapFromList entries⟩

/-- Translation of the load effect (`App.tsx` lines 27 to 43).  An absent
slot is skipped.  A malformed slot makes `JSON.parse` throw; the catch
handler removes the slot.  A parsed `null` makes the member access
`parsed.menuItems` throw, with the same catch handler.  Otherwise, when
`parsed.menuItems?.length` is falsy nothing happens (in particular the
slot is NOT erased), and when it is truthy the state is hydrated, any
exception during hydration again erasing the slot. -/
def loadEffect : SlotContent → LoadResult × SlotContent
  | .absent => (.noSession, .absent)
  | .malformed => (.noSession, .absent)
  | .wellFormed .null => (.noSession, .absent)
  | .wellFormed j =>
    if menuItemsOk j then
      match decodeState j with
      | some st => (.loaded st, .wellFormed j)
      | none => (.noSession, .absent)
    else (.noSession, .wellFormed j)

/-- Slice of the App component state watched by the persistence bridge. -/
structure AppCore where
  menuItems : List MenuItem
  restaurantName : String
  restaurantLocation : String
  order : Ledger
deriving Repr, DecidableEq

/-- Snapshot view of the watched state. -/
def snapshotOf (s : AppCore) : Snapshot :=
  ⟨s.menuItems, s.restaurantName, s.restaurantLocation, s.order⟩

/-- Translation of the save effect (`App.tsx` lines 45 to 54): the slot is
written only when `menuItems` is non-empty, and otherwise left as is. -/
def saveEffect (s : AppCore) (slot : SlotContent) : SlotContent :=
  if s.menuItems.isEmpty then slot
  else .wellFormed (encodeSnapshot (snapshotOf s))

/-- Events of the single-threaded event stream of `App.tsx` that touch the
watched state: a successful parse (`handleFileSelect` success path), a
failed parse, an order adjustment (`handleUpdateOrder`), a restaurant
identity edit (`RestaurantEditModal` save), and the explicit reset (the
camera button of the header). -/
inductive Event where
  | parseOk : List MenuItem → String → Event
  | parseFail : Event
  | adjust : String → ℚ → Event
  | editRestaurant : String → String → Event
  | reset : Event

/-- State transition of one event, before the save effect re-runs. -/
def applyEvent (s : AppCore) : Event → AppCore
  | .parseOk items rn =>
    { s with menuItems := items,
             restaurantName := if rn == "" then "Unknown Restaurant" else rn,
             order := [] }
  | .parseFail => s
  | .adjust name delta =>
    { s with order := handleUpdateOrder s.order name delta }
  | .editRestaurant n l =>
    { s with restaurantName := n, restaurantLocation := l }
  | .reset => { s with menuItems := [] }

/-- One step of the event loop: apply the event (the reset event also
removes the slot), then re-run the save effect.  The second component
logs the snapshot written by the save effect, when it writes. -/
def step (c : AppCore × SlotContent) (e : Event) :
    (AppCore × SlotContent) × List Snapshot :=
  let s := applyEvent c.1 e
  let slot := match e with
    | .reset => SlotContent.absent
    | _ => c.2
  ((s, saveEffect s slot),
   if s.menuItems.isEmpty then [] else [snapshotOf s])

/-- Run of a list of events, accumulating the log of written snapshots. -/
def run (c : AppCore × SlotContent) :
    List Event → (AppCore × SlotContent) × List Snapshot
  | [] => (c, [])
  | e :: es =>
    let r := step c e
    let rest := run r.1 es
    (rest.1, r.2 ++ rest.2)

/-- Ledger obtained from a sequence of `handleUpdateOrder` calls applied to
the initially empty ledger. -/
def runAdjusts (calls : List (String × ℚ)) : Ledger :=
  calls.foldl (fun m c => handleUpdateOrder m c.1 c.2) []

/-- Deltas of the calls addressed to one identity, in order. -/
def deltasFor (calls : List (String × ℚ)) (id : String) : List ℚ :=
  calls.filterMap (fun c => if c.1 = id then some c.2 else none)

/-- Quantity after a sequence of deltas with the floor applied at every
step: a left fold of `max 0 (q + d)`. -/
def clampFold (deltas : List ℚ) : ℚ :=
  deltas.foldl (fun q d => max 0 (q + d)) 0

theorem mapGet_cons (a : String) (v : ℚ) (m : Ledger) (k : String) :
    mapGet ((a, v) :: m) k = if a = k then some v else mapGet m k := by
  by_cases h : a = k
  · simp [mapGet, List.find?_cons_of_pos, h]
  · simp only [mapGet, h, if_false]
    rw [List.find?_cons_of_neg]
    simp [h]

theorem mapSet_nil (k : String) (v : ℚ) : mapSet [] k v = [(k, v)] := rfl

theorem mapSet_cons_eq (a : String) (b : ℚ) (m : Ledger) (k : String)
    (v : ℚ) (h : a = k) : mapSet ((a, b) :: m) k v = (k, v) :: m := by
  simp [mapSet, h]

theorem mapSet_cons_ne (a : String) (b : ℚ) (m : Ledger) (k : String)
    (v : ℚ) (h : ¬a = k) :
    mapSet ((a, b) :: m) k v = (a, b) :: mapSet m k v := by
  simp [mapSet, h]

theorem mapDelete_nil (k : String) : mapDelete [] k = [] := rfl

theorem mapDelete_cons_eq (a : String) (b : ℚ) (m : Ledger) (k : String)
    (h : a = k) : mapDelete ((a, b) :: m) k = m := by
  simp [mapDelete, h]

theorem mapDelete_cons_ne (a : String) (b : ℚ) (m : Ledger) (k : String)
    (h : ¬a = k) : mapDelete ((a, b) :: m) k = (a, b) :: mapDelete m k := by
  simp [mapDelete, h]

theorem mapGet_set_self (m : Ledger) (k : String) (v : ℚ) :
    mapGet (mapSet m k v) k = some v := by
  induction m with
  | nil => rw [mapSet_nil, mapGet_cons, if_pos rfl]
  | cons p rest ih =>
    obtain ⟨a, b⟩ := p
    by_cases h : a = k
    · rw [mapSet_cons_eq a b rest k v h, mapGet_cons, if_pos rfl]
    · rw [mapSet_cons_ne a b rest k v h, mapGet_cons, if_neg h, ih]

theorem mapGet_set_ne (m : Ledger) (k : String) (v : ℚ) (id : String)
    (h : id ≠ k) : mapGet (mapSet m k v) id = mapGet m id := by
  have hk : ¬k = id := fun hh => h hh.symm
  induction m with
  | nil => rw [mapSet_nil, mapGet_cons, if_neg hk]
  | cons p rest ih =>
    obtain ⟨a, b⟩ := p
    by_cases ha : a = k
    · subst ha
      rw [mapSet_cons_eq a b rest a v rfl, mapGet_cons, mapGet_cons,
        if_neg hk, if_neg hk]
    · rw [mapSet_cons_ne a b rest k v ha, mapGet_cons, mapGet_cons, ih]

theorem mapGet_delete_ne (m : Ledger) (k : String) (id : String)
    (h : id ≠ k) : mapGet (mapDelete m k) id = mapGet m id := by
  have hk : ¬k = id := fun hh => h hh.symm
  induction m with
  | nil => rfl
  | cons p rest ih =>
    obtain ⟨a, b⟩ := p
    by_cases ha : a = k
    · subst ha
      rw [mapDelete_cons_eq a b rest a rfl, mapGet_cons, if_neg hk]
    · rw [mapDelete_cons_ne a b rest k ha, mapGet_cons, mapGet_cons, ih]

theorem mapGet_eq_none_of_not_mem (m : Ledger) (k : String)
    (h : k ∉ m.map Prod.fst) : mapGet m k = none := by
  induction m with
  | nil => rfl
  | cons p rest ih =>
    obtain ⟨a, b⟩ := p
    simp only [List.map_cons, List.mem_cons, not_or] at h
    rw [mapGet_cons, if_neg (fun hh => h.1 hh.symm), ih h.2]

theorem mapDelete_sublist (m : Ledger) (k : String) :
    (mapDelete m k).Sublist m := by
  induction m with
  | nil => simp [mapDelete]
  | cons p rest ih =>
    obtain ⟨a, b⟩ := p
    by_cases ha : a = k
    · rw [mapDelete_cons_eq a b rest k ha]
      exact List.sublist_cons_self _ _
    · rw [mapDelete_cons_ne a b rest k ha]
      exact ih.cons₂ _

theorem mapGet_delete_self (m : Ledger) (k : String)
    (h : (m.map Prod.fst).Nodup) : mapGet (mapDelete m k) k = none := by
  induction m with
  | nil => rfl
  | cons p rest ih =>
    obtain ⟨a, b⟩ := p
    simp only [List.map_cons, List.nodup_cons] at h
    by_cases ha : a = k
    · subst ha
      rw [mapDelete_cons_eq a b rest a rfl]
      exact mapGet_eq_none_of_not_mem rest a h.1
    · rw [mapDelete_cons_ne a b rest k ha, mapGet_cons, if_neg ha, ih h.2]

theorem mem_keys_mapSet (m : Ledger) (k : String) (v : ℚ) (a : String) :
    a ∈ (mapSet m k v).map Prod.fst ↔ a ∈ m.map Prod.fst ∨ a = k := by
  induction m with
  | nil => simp [mapSet_nil]
  | cons p rest ih =>
    obtain ⟨x, y⟩ := p
    by_cases hx : x = k
    · subst hx
      rw [mapSet_cons_eq x y rest x v rfl]
      simp only [List.map_cons, List.mem_cons]
      tauto
    · rw [mapSet_cons_ne x y rest k v hx]
      simp only [List.map_cons, List.mem_cons, ih]
      tauto

theorem nodup_keys_mapSet (m : Ledger) (k : String) (v : ℚ)
    (h : (m.map Prod.fst).Nodup) : ((mapSet m k v).map Prod.fst).Nodup := by
  induction m with
  | nil => simp [mapSet_nil]
  | cons p rest ih =>
    obtain ⟨x, y⟩ := p
    simp only [List.map_cons, List.nodup_cons] at h
    by_cases hx : x = k
    · subst hx
      rw [mapSet_cons_eq x y rest x v rfl]
      exact List.Nodup.cons h.1 h.2
    · rw [mapSet_cons_ne x y rest k v hx]
      simp only [List.map_cons, List.nodup_cons]
      refine ⟨?_, ih h.2⟩
      intro hmem
      rcases (mem_keys_mapSet rest k v x).mp hmem with h2 | h2
      · exact h.1 h2
      · exact hx h2

theorem nodup_keys_mapDelete (m : Ledger) (k : String)
    (h : (m.map Prod.fst).Nodup) : ((mapDelete m k).map Prod.fst).Nodup :=
  ((mapDelete_sublist m k).map Prod.fst).nodup h

theorem nodup_keys_handleUpdateOrder (m : Ledger) (k : String) (d : ℚ)
    (h : (m.map Prod.fst).Nodup) :
    ((handleUpdateOrder m k d).map Prod.fst).Nodup := by
  rw [handleUpdateOrder]
  split
  · exact nodup_keys_mapDelete m k h
  · exact nodup_keys_mapSet m k _ h

theorem mapGet_handleUpdateOrder_self (m : Ledger) (k : String) (d : ℚ)
    (h : (m.map Prod.fst).Nodup) :
    mapGet (handleUpdateOrder m k d) k =
      if (mapGet m k).getD 0 + d ≤ 0 then none
      else some ((mapGet m k).getD 0 + d) := by
  rw [handleUpdateOrder]
  split
  · exact mapGet_delete_self m k h
  · exact mapGet_set_self m k _

theorem mapGet_handleUpdateOrder_ne (m : Ledger) (k : String) (d : ℚ)
    (id : String) (h : id ≠ k) :
    mapGet (handleUpdateOrder m k d) id = mapGet m id := by
  rw [handleUpdateOrder]
  split
  · exact mapGet_delete_ne m k id h
  · exact mapGet_set_ne m k _ id h

theorem deltasFor_cons (k : String) (d : ℚ) (rest : List (String × ℚ))
    (id : String) :
    deltasFor ((k, d) :: rest) id =
      if k = id then d :: deltasFor rest id else deltasFor rest id := by
  by_cases h : k = id
  · simp [deltasFor, List.filterMap_cons, h]
  · simp [deltasFor, List.filterMap_cons, h]

theorem runAdjusts_aux (calls : List (String × ℚ)) :
    ∀ (m : Ledger) (f : String → ℚ),
    (m.map Prod.fst).Nodup →
    (∀ id, mapGet m id = if f id = 0 then none else some (f id)) →
    ∀ id,
      mapGet (calls.foldl (fun acc c => handleUpdateOrder acc c.1 c.2) m) id =
        (if (deltasFor calls id).foldl (fun q d => max 0 (q + d)) (f id) = 0
         then none
         else some ((deltasFor calls id).foldl (fun q d => max 0 (q + d))
           (f id))) := by
  induction calls with
  | nil =>
    intro m f _ hf id
    simpa [deltasFor] using hf id
  | cons c rest ih =>
    intro m f hn hf id
    obtain ⟨k, d⟩ := c
    have hcur : ∀ j, (mapGet m j).getD 0 = f j := by
      intro j
      rw [hf j]
      split
    -- absent entries stand for the value 0
      · simp [*]
      · rfl
    have hn2 : ((handleUpdateOrder m k d).map Prod.fst).Nodup :=
      nodup_keys_handleUpdateOrder m k d hn
    have hf2 : ∀ j, mapGet (handleUpdateOrder m k d) j =
        if (if j = k then max 0 (f j + d) else f j) = 0 then none
        else some (if j = k then max 0 (f j + d) else f j) := by
      intro j
      by_cases hj : j = k
      · subst hj
        rw [mapGet_handleUpdateOrder_self m j d hn, hcur j]
        by_cases hle : f j + d ≤ 0
        · rw [if_pos hle, if_pos]
          simp [max_eq_left hle]
        · rw [if_neg hle, if_neg]
          · rw [if_pos rfl, max_eq_right (le_of_lt (not_le.mp hle))]
          · rw [if_pos rfl, max_eq_right (le_of_lt (not_le.mp hle))]
            exact ne_of_gt (not_le.mp hle)
      · rw [mapGet_handleUpdateOrder_ne m k d j hj, hf j, if_neg hj]
    have := ih (handleUpdateOrder m k d)
      (fun j => if j = k then max 0 (f j + d) else f j) hn2 hf2 id
    rw [List.foldl_cons]
    rw [this, deltasFor_cons]
    by_cases hk : k = id
    · subst hk
      rw [if_pos rfl, if_pos rfl, List.foldl_cons]
    · have hik : ¬id = k := fun hh => hk hh.symm
      rw [if_neg hik, if_neg hk]

/-- Claim C1, amended: starting from the empty ledger, after any sequence
of `handleUpdateOrder` calls the quantity recorded for an identity is the
left fold of `max 0 (quantity + delta)` over the deltas addressed to that
identity (the floor at 0 is applied at every call, not once to the final
sum), and the identity is absent from the ledger exactly when that value
is 0. -/
theorem claim_C1_adjust_clamped_per_step (calls : List (String × ℚ))
    (id : String) :
    mapGet (runAdjusts calls) id =
      if clampFold (deltasFor calls id) = 0 then none
      else some (clampFold (deltasFor calls id)) := by
  have := runAdjusts_aux calls [] (fun _ => 0) (by simp)
    (by intro j; simp [mapGet])
  simpa [runAdjusts, clampFold] using this id

/-- Claim C1, counterexample: for the call sequence
`adjust("a", -1); adjust("a", 1)` the final quantity for `"a"` is 1 and
the entry is present, while `max 0 (sum of deltas) = max 0 0 = 0`, so the
final quantity is neither `max 0 (sum of deltas)` nor absent as the claim
requires. -/
theorem claim_C1_counterexample :
    mapGet (runAdjusts [("a", -1), ("a", 1)]) "a" = some 1 ∧
    max 0 (List.sum (List.map Prod.snd
      [(("a" : String), (-1 : ℚ)), ("a", 1)])) = 0 ∧
    some (1 : ℚ) ≠ some (max 0 (List.sum (List.map Prod.snd
      [(("a" : String), (-1 : ℚ)), ("a", 1)]))) := by
  refine ⟨?_, ?_, ?_⟩ <;>
    norm_num [runAdjusts, handleUpdateOrder, mapGet, mapSet, mapDelete,
      List.find?]

/-- Claim C10: an `adjust` event leaves the catalog, the restaurant name
and the restaurant location unchanged, and leaves the quantity of every
identity other than the adjusted one unchanged. -/
theorem claim_C10_adjust_frame (s : AppCore) (slot : SlotContent)
    (name : String) (delta : ℚ) (id : String) (h : id ≠ name) :
    (step (s, slot) (Event.adjust name delta)).1.1.menuItems = s.menuItems ∧
    (step (s, slot) (Event.adjust name delta)).1.1.restaurantName =
      s.restaurantName ∧
    (step (s, slot) (Event.adjust name delta)).1.1.restaurantLocation =
      s.restaurantLocation ∧
    mapGet (step (s, slot) (Event.adjust name delta)).1.1.order id =
      mapGet s.order id :=
  ⟨rfl, rfl, rfl, mapGet_handleUpdateOrder_ne s.order name delta id h⟩

/-- Witness for claim C10 at a concrete state and identity. -/
theorem claim_C10_witness :
    mapGet (step (⟨[], "", "", [("a", 1)]⟩, SlotContent.absent)
      (Event.adjust "a" 1)).1.1.order "b" = mapGet [("a", 1)] "b" :=
  (claim_C10_adjust_frame ⟨[], "", "", [("a", 1)]⟩ SlotContent.absent
    "a" 1 "b" (by decide)).2.2.2

theorem run_cons (c : AppCore × SlotContent) (e : Event)
    (es : List Event) :
    run c (e :: es) =
      ((run (step c e).1 es).1, (step c e).2 ++ (run (step c e).1 es).2) :=
  rfl

theorem step_snd (c : AppCore × SlotContent) (e : Event) :
    (step c e).2 =
      if (applyEvent c.1 e).menuItems.isEmpty then []
      else [snapshotOf (applyEvent c.1 e)] :=
  rfl

/-- Claim C9: in every run of the event machine, every snapshot the save
effect ever writes to the persisted slot has a non-empty dish list; an
empty catalog is never persisted. -/
theorem claim_C9_no_empty_catalog_persisted (events : List Event)
    (c : AppCore × SlotContent) (snap : Snapshot)
    (h : snap ∈ (run c events).2) : snap.menuItems ≠ [] := by
  induction events generalizing c with
  | nil => simp [run] at h
  | cons e es ih =>
    rw [run_cons] at h
    rcases List.mem_append.mp h with h1 | h1
    · rw [step_snd] at h1
      by_cases he : (applyEvent c.1 e).menuItems.isEmpty
      · rw [if_pos he] at h1
        simp at h1
      · rw [if_neg he] at h1
        rcases List.mem_singleton.mp h1 with rfl
        intro hcontra
        exact he (by simp [snapshotOf] at hcontra ⊢; simp [hcontra])
    · exact ih _ h1

/-- Witness for claim C9: a run with one successful parse writes exactly
one snapshot, and its dish list is non-empty. -/
theorem claim_C9_witness :
    (Snapshot.mk [⟨"x", "X", "", "", none, none, none⟩] "R" "" []).menuItems
      ≠ [] :=
  claim_C9_no_empty_catalog_persisted
    [Event.parseOk [⟨"x", "X", "", "", none, none, none⟩] "R"]
    (⟨[], "", "", []⟩, SlotContent.absent) _ (by decide)

theorem foldl_add_eq (f : α → ℚ) (l : List α) (a : ℚ) :
    l.foldl (fun s x => s + f x) a = a + (l.map f).sum := by
  induction l generalizing a with
  | nil => simp
  | cons x xs ih => simp [ih, add_assoc]

theorem totalItems_eq_sum (order : Ledger) :
    totalItems order = (order.map Prod.snd).sum := by
  have := foldl_add_eq (fun x : ℚ => x) (order.map Prod.snd) 0
  simpa [totalItems] using this

/-- Contribution of one resolved cart item to `cartTotal`, as folded by
the source. -/
def cartItemValue (t : MenuItem × ℚ × String) : ℚ :=
  match t.1.price with
  | none => 0
  | some p => if p == "" then 0 else priceToNumber p * t.2.1

theorem cartTotal_eq_sum (order : Ledger) (menuItems : List MenuItem) :
    cartTotal order menuItems =
      ((cartItems order menuItems).map cartItemValue).sum := by
  rw [cartTotal]
  have hfun : (fun (sum : ℚ) (t : MenuItem × ℚ × String) =>
      match t.1.price with
      | none => sum
      | some p => if p == "" then sum else sum + priceToNumber p * t.2.1) =
      (fun (sum : ℚ) t => sum + cartItemValue t) := by
    funext s t
    obtain ⟨i, q, n⟩ := t
    rcases hp : i.price with _ | p
    · simp [cartItemValue, hp]
    · by_cases he : p == ""
      · simp [cartItemValue, hp, he]
      · simp [cartItemValue, hp, he]
  rw [hfun, foldl_add_eq cartItemValue, zero_add]

theorem cartItems_append (o1 o2 : Ledger) (menuItems : List MenuItem) :
    cartItems (o1 ++ o2) menuItems =
      cartItems o1 menuItems ++ cartItems o2 menuItems := by
  simp [cartItems]

theorem cartItems_single_none (name : String) (qty : ℚ)
    (menuItems : List MenuItem)
    (h : menuItems.find? (fun m => m.originalName == name) = none) :
    cartItems [(name, qty)] menuItems = [] := by
  simp [cartItems, h]

/-- Claim C3: a ledger entry whose identity resolves to no dish of the
catalog is excluded from the cart display list and contributes nothing to
the cart total, but its quantity is still counted by `totalItems`. -/
theorem claim_C3_orphan_entry (pre post : Ledger)
    (menuItems : List MenuItem) (name : String) (qty : ℚ)
    (h : menuItems.find? (fun m => m.originalName == name) = none) :
    cartItems (pre ++ (name, qty) :: post) menuItems =
      cartItems (pre ++ post) menuItems ∧
    cartTotal (pre ++ (name, qty) :: post) menuItems =
      cartTotal (pre ++ post) menuItems ∧
    totalItems (pre ++ (name, qty) :: post) =
      totalItems (pre ++ post) + qty := by
  have hcons : ((name, qty) :: post : Ledger) = [(name, qty)] ++ post := rfl
  have hci : cartItems (pre ++ (name, qty) :: post) menuItems =
      cartItems (pre ++ post) menuItems := by
    rw [hcons, cartItems_append, cartItems_append,
      cartItems_single_none name qty menuItems h, cartItems_append,
      List.nil_append]
  refine ⟨hci, ?_, ?_⟩
  · rw [cartTotal_eq_sum, cartTotal_eq_sum, hci]
  · rw [totalItems_eq_sum, totalItems_eq_sum]
    simp [List.sum_append]
    ring

/-- Witness for claim C3 at a concrete ledger holding one resolved entry
and one orphaned entry. -/
theorem claim_C3_witness :
    cartItems ([("x", 2)] ++ ("ghost", 3) :: [])
        [⟨"x", "X", "", "", some "€4", none, none⟩] =
      cartItems ([("x", 2)] ++ [])
        [⟨"x", "X", "", "", some "€4", none, none⟩] ∧
    cartTotal ([("x", 2)] ++ ("ghost", 3) :: [])
        [⟨"x", "X", "", "", some "€4", none, none⟩] =
      cartTotal ([("x", 2)] ++ [])
        [⟨"x", "X", "", "", some "€4", none, none⟩] ∧
    totalItems ([("x", 2)] ++ ("ghost", 3) :: []) =
      totalItems ([("x", 2)] ++ []) + 3 :=
  claim_C3_orphan_entry [("x", 2)] []
    [⟨"x", "X", "", "", some "€4", none, none⟩] "ghost" 3 (by decide)

theorem findNumMatch_eq_none (cs : List Char)
    (h : ∀ c ∈ cs, c.isDigit = false) : findNumMatch cs = none := by
  induction cs with
  | nil => rfl
  | cons c rest ih =>
    rw [findNumMatch, if_neg (by simp [h c (List.mem_cons_self c rest)])]
    exact ih (fun x hx => h x (List.mem_cons_of_mem c hx))

theorem cartItemValue_resolve (i : MenuItem) (q : ℚ) (n : String) :
    cartItemValue (i, q, n) =
      (match i.price with
       | none => 0
       | some p => priceToNumber p * q) := by
  rcases hp : i.price with _ | p
  · simp [cartItemValue, hp]
  · by_cases he : p = ""
    · subst he
      simp [cartItemValue, hp, show priceToNumber "" = 0 from rfl]
    · simp [cartItemValue, hp, he]

/-- Claim C4: the cart total is the sum, over the ledger entries whose
dish resolves in the catalog and carries a price string, of the parsed
price times the quantity, where the parsed price is the value of the
first contiguous digit run with at most one decimal point and is 0 when
the price string holds no digit at all. -/
theorem claim_C4_cartTotal_formula :
    (∀ (order : Ledger) (menuItems : List MenuItem),
      cartTotal order menuItems =
        (order.map (fun e =>
          match menuItems.find? (fun m => m.originalName == e.1) with
          | none => 0
          | some item =>
            match item.price with
            | none => 0
            | some p => priceToNumber p * e.2)).sum) ∧
    (∀ p : String, (∀ c ∈ p.data, c.isDigit = false) →
      priceToNumber p = 0) := by
  constructor
  · intro order menuItems
    induction order with
    | nil => simp [cartTotal_eq_sum, cartItems]
    | cons e rest ih =>
      obtain ⟨n, q⟩ := e
      have hcons : ((n, q) :: rest : Ledger) = [(n, q)] ++ rest := rfl
      rw [hcons, cartTotal_eq_sum, cartItems_append, List.map_append,
        List.sum_append, ← cartTotal_eq_sum rest menuItems, ih,
        List.map_append, List.sum_append]
      congr 1
      rcases hf : menuItems.find? (fun m => m.originalName == n)
        with _ | item
      · simp [cartItems, hf]
      · simp [cartItems, hf, cartItemValue_resolve]
  · intro p h
    rw [priceToNumber, findNumMatch_eq_none p.data h]

/-- Witness for claim C4: a price string without a digit parses to 0. -/
theorem claim_C4_witness : priceToNumber "free" = 0 :=
  claim_C4_cartTotal_formula.2 "free" (by decide)

/-- Claim C5: the bill splitter arithmetic, over exact rationals: the tip
is `billBase * tipPercent / 100`, the grand total adds it to the base,
the per-person figures divide by the party count clamped up to 1, a party
of one pays `billBase * (1 + tipPercent / 100)`, and the concrete case
(100, 18, 4) gives 18, 118 and 29.50. -/
theorem claim_C5_bill_splitter (billBase tipPercent : ℚ) (splitCount : ℤ)
    (hb : 0 ≤ billBase) :
    tipAmount billBase tipPercent = billBase * tipPercent / 100 ∧
    finalTotal billBase tipPercent =
      billBase + tipAmount billBase tipPercent ∧
    perPersonTotal billBase tipPercent splitCount =
      finalTotal billBase tipPercent / ((max 1 splitCount : ℤ) : ℚ) ∧
    perPersonBill billBase splitCount =
      billBase / ((max 1 splitCount : ℤ) : ℚ) ∧
    perPersonTip billBase tipPercent splitCount =
      tipAmount billBase tipPercent / ((max 1 splitCount : ℤ) : ℚ) ∧
    perPersonTotal billBase tipPercent 1 =
      billBase * (1 + tipPercent / 100) ∧
    tipAmount 100 18 = 18 ∧
    finalTotal 100 18 = 118 ∧
    perPersonTotal 100 18 4 = 29.5 := by
  refine ⟨by rw [tipAmount]; ring, rfl, rfl, rfl, rfl, ?_,
    by norm_num [tipAmount],
    by norm_num [finalTotal, tipAmount],
    by norm_num [perPersonTotal, finalTotal, tipAmount, splitBy]⟩
  rw [perPersonTotal, finalTotal, tipAmount, splitBy]
  norm_num
  ring

/-- Witness for claim C5 at the concrete inputs named by the spec. -/
theorem claim_C5_witness : perPersonTotal 100 18 4 = 29.5 :=
  (claim_C5_bill_splitter 100 18 4 (by norm_num)).2.2.2.2.2.2.2.2

/-- Claim C6: the filter verdicts: dimming is the vegetarian toggle
against dishes without a Vegetarian or Vegan tag, the warning verdict
combines the nut and pork cases, the spicy highlight needs the toggle
and the tag, and when both warnings hold the single badge shows the nut
text. -/
theorem claim_C6_filter_verdicts (fs : FilterState) (item : MenuItem) :
    (isDimmed fs item = true ↔
      (fs.vegetarian = true ∧
        ¬("Vegetarian" ∈ item.tags.getD [] ∨
          "Vegan" ∈ item.tags.getD []))) ∧
    (hasWarning fs item = true ↔
      ((fs.nutAllergy = true ∧ "Contains Nuts" ∈ item.tags.getD []) ∨
       (fs.noPork = true ∧ "Contains Pork" ∈ item.tags.getD []))) ∧
    (highlightSpicy fs item = true ↔
      (fs.spicy = true ∧ "Spicy" ∈ item.tags.getD [])) ∧
    (showNutWarning fs item = true → showPorkWarning fs item = true →
      warningBadge fs item = some "CONTAINS NUTS") := by
  refine ⟨?_, ?_, ?_, ?_⟩
  · simp [isDimmed, isVeg, hasTag, not_or]
  · simp [hasWarning, showNutWarning, showPorkWarning, hasTag]
  · simp [highlightSpicy, hasTag]
  · intro h1 h2
    simp [warningBadge, hasWarning, h1]

/-- Witness for claim C6: a dish tagged with both nuts and pork under both
toggles shows the single nut badge. -/
theorem claim_C6_witness :
    warningBadge ⟨false, true, true, false⟩
      ⟨"n", "N", "", "", none, none,
        some ["Contains Nuts", "Contains Pork"]⟩ = some "CONTAINS NUTS" :=
  (claim_C6_filter_verdicts ⟨false, true, true, false⟩
    ⟨"n", "N", "", "", none, none,
      some ["Contains Nuts", "Contains Pork"]⟩).2.2.2 (by decide) (by decide)

/-- Statement of claim C7 in the words of the spec, for comparison with
the source: the symbol comes from the first dish that has a price,
stripped of digits, dots and spaces. -/
def currencySymbolClaimedC7 (menuItems : List MenuItem) : Option String :=
  (menuItems.find? (fun m => m.price.isSome)).bind
    (fun m => m.price.map stripPriceChars)

/-- Claim C7, counterexample: with a catalog whose first dish has no price
and whose second dish is priced `"€5"`, and a ledger holding both, the code
falls back to `"$"` (the first cart item has no price) while the claim
prescribes `"€"` from the first dish that has a price. -/
theorem claim_C7_counterexample :
    currencySymbol [("a", 1), ("b", 1)]
      [⟨"a", "A", "", "", none, none, none⟩,
       ⟨"b", "B", "", "", some "€5", none, none⟩] = "$" ∧
    currencySymbolClaimedC7
      [⟨"a", "A", "", "", none, none, none⟩,
       ⟨"b", "B", "", "", some "€5", none, none⟩] = some "€" ∧
    ("$" : String) ≠ "€" := by
  refine ⟨by decide, by decide, by decide⟩

/-- Claim C7, amended: the displayed currency symbol comes from the first
cart entry (the first ledger entry whose dish resolves in the catalog):
its price string stripped of digits, dots and spaces, with `"$"` when
there is no cart entry, when that first cart item has no price, or when
stripping leaves the empty string. -/
theorem claim_C7_currency_from_first_cart_item (order : Ledger)
    (menuItems : List MenuItem) :
    (cartItems order menuItems = [] →
      currencySymbol order menuItems = "$") ∧
    (∀ (t : MenuItem × ℚ × String) (rest : List (MenuItem × ℚ × String)),
      cartItems order menuItems = t :: rest →
      currencySymbol order menuItems =
        (match t.1.price with
         | none => "$"
         | some p =>
           if stripPriceChars p == "" then "$" else stripPriceChars p)) := by
  constructor
  · intro h
    rw [currencySymbol, h]
  · intro t rest h
    rw [currencySymbol, h]

/-- Witness for claim C7 (amended) at a concrete euro-priced cart. -/
theorem claim_C7_witness :
    currencySymbol [("b", 1)]
      [⟨"b", "B", "", "", some "€5", none, none⟩] = "€" := by
  have h := (claim_C7_currency_from_first_cart_item [("b", 1)]
    [⟨"b", "B", "", "", some "€5", none, none⟩]).2
    (⟨"b", "B", "", "", some "€5", none, none⟩, 1, "b") [] (by decide)
  rw [h]
  decide

/-- Claim C8, counterexample: a stored slot holding `{}` (content that
parses but misses the required `menuItems` field) makes the load effect
report no prior session, yet the slot is left in place rather than
erased, so not every structural failure erases the corrupt slot. -/
theorem claim_C8_counterexample :
    (loadEffect (SlotContent.wellFormed (Json.obj []))).1 =
      LoadResult.noSession ∧
    (loadEffect (SlotContent.wellFormed (Json.obj []))).2 =
      SlotContent.wellFormed (Json.obj []) ∧
    SlotContent.wellFormed (Json.obj []) ≠ SlotContent.absent :=
  ⟨rfl, rfl, fun h => SlotContent.noConfusion h⟩

/-- Claim C8, amended: the load effect is a total function (no exception
escapes it); unparseable content is reported as no prior session and the
slot is erased, an absent slot is reported as no prior session, and
content that parses but whose `menuItems` member has a falsy length is
reported as no prior session with the slot left in place. -/
theorem claim_C8_load_erasure (j : Json) (hnull : j ≠ Json.null)
    (hok : menuItemsOk j = false) :
    loadEffect SlotContent.malformed =
      (LoadResult.noSession, SlotContent.absent) ∧
    loadEffect SlotContent.absent =
      (LoadResult.noSession, SlotContent.absent) ∧
    loadEffect (SlotContent.wellFormed j) =
      (LoadResult.noSession, SlotContent.wellFormed j) := by
  refine ⟨rfl, rfl, ?_⟩
  cases j with
  | null => exact absurd rfl hnull
  | bool b => simp [loadEffect, hok]
  | num q => simp [loadEffect, hok]
  | str s => simp [loadEffect, hok]
  | arr xs => simp [loadEffect, hok]
  | obj fields => simp [loadEffect, hok]

/-- Witness for claim C8 (amended) at a concrete parsed object without a
`menuItems` member. -/
theorem claim_C8_witness :
    loadEffect (SlotContent.wellFormed (Json.obj [("tally", Json.num 3)])) =
      (LoadResult.noSession,
       SlotContent.wellFormed (Json.obj [("tally", Json.num 3)])) :=
  (claim_C8_load_erasure (Json.obj [("tally", Json.num 3)])
    (fun h => Json.noConfusion h) rfl).2.2

theorem decodeList_map (f : α → Json) (g : Json → Option α)
    (hfg : ∀ x, g (f x) = some x) (l : List α) :
    decodeList g (l.map f) = some l := by
  induction l with
  | nil => rfl
  | cons x xs ih => simp [decodeList, hfg x, ih]

theorem decodeMenuItem_encodeMenuItem (m : MenuItem) :
    decodeMenuItem (encodeMenuItem m) = some m := by
  have hts : ∀ ts : List String,
      decodeList asStr (ts.map Json.str) = some ts :=
    decodeList_map Json.str asStr (fun _ => rfl)
  obtain ⟨nm, tn, de, td, pr, ca, tg⟩ := m
  rcases pr with _ | p <;> rcases ca with _ | c <;> rcases tg with _ | ts
  · rfl
  · exact (show decodeMenuItem
        (encodeMenuItem ⟨nm, tn, de, td, none, none, some ts⟩) =
        some ⟨nm, tn, de, td, none, none,
          decodeList asStr (ts.map Json.str)⟩ from rfl).trans
      (by rw [hts ts])
  · rfl
  · exact (show decodeMenuItem
        (encodeMenuItem ⟨nm, tn, de, td, none, some c, some ts⟩) =
        some ⟨nm, tn, de, td, none, some c,
          decodeList asStr (ts.map Json.str)⟩ from rfl).trans
      (by rw [hts ts])
  · rfl
  · exact (show decodeMenuItem
        (encodeMenuItem ⟨nm, tn, de, td, some p, none, some ts⟩) =
        some ⟨nm, tn, de, td, some p, none,
          decodeList asStr (ts.map Json.str)⟩ from rfl).trans
      (by rw [hts ts])
  · rfl
  · exact (show decodeMenuItem
        (encodeMenuItem ⟨nm, tn, de, td, some p, some c, some ts⟩) =
        some ⟨nm, tn, de, td, some p, some c,
          decodeList asStr (ts.map Json.str)⟩ from rfl).trans
      (by rw [hts ts])

theorem mapSet_append_of_not_mem (m : Ledger) (k : String) (v : ℚ)
    (h : k ∉ m.map Prod.fst) : mapSet m k v = m ++ [(k, v)] := by
  induction m with
  | nil => rfl
  | cons p rest ih =>
    obtain ⟨a, b⟩ := p
    simp only [List.map_cons, List.mem_cons, not_or] at h
    rw [mapSet_cons_ne a b rest k v (fun hh => h.1 hh.symm),
      List.cons_append, ih h.2]

theorem foldl_mapSet_eq (l : List (String × ℚ)) :
    ∀ acc : Ledger, (l.map Prod.fst).Nodup →
      (∀ k ∈ l.map Prod.fst, k ∉ acc.map Prod.fst) →
      l.foldl (fun m p => mapSet m p.1 p.2) acc = acc ++ l := by
  induction l with
  | nil => intro acc _ _; simp
  | cons p rest ih =>
    intro acc hn hdisj
    obtain ⟨k, v⟩ := p
    simp only [List.map_cons, List.nodup_cons] at hn
    rw [List.foldl_cons,
      mapSet_append_of_not_mem acc k v (hdisj k (by simp)),
      ih (acc ++ [(k, v)]) hn.2 ?_]
    · simp
    · intro j hj
      simp only [List.map_append, List.mem_append, not_or]
      refine ⟨hdisj j (by simp [hj]), ?_⟩
      simp only [List.map_cons, List.map_nil, List.mem_singleton]
      intro hjk
      exact hn.1 (hjk ▸ hj)

theorem mapFromList_self (l : List (String × ℚ))
    (h : (l.map Prod.fst).Nodup) : mapFromList l = l := by
  have := foldl_mapSet_eq l [] h (by simp)
  simpa [mapFromList] using this

theorem decodeState_encodeSnapshot (s : Snapshot)
    (h : (s.order.map Prod.fst).Nodup) :
    decodeState (encodeSnapshot s) = some s := by
  obtain ⟨items, name, loc, order⟩ := s
  have h1 : getField (encodeSnapshot ⟨items, name, loc, order⟩)
      "menuItems" = some (.arr (items.map encodeMenuItem)) := rfl
  have h2 : getField (encodeSnapshot ⟨items, name, loc, order⟩)
      "restaurantName" = some (.str name) := rfl
  have h3 : getField (encodeSnapshot ⟨items, name, loc, order⟩)
      "restaurantLocation" = some (.str loc) := rfl
  have h4 : getField (encodeSnapshot ⟨items, name, loc, order⟩)
      "order" = some (.arr (order.map
        (fun p => .arr [.str p.1, .num p.2]))) := rfl
  have hitems : decodeList decodeMenuItem (items.map encodeMenuItem) =
      some items :=
    decodeList_map encodeMenuItem decodeMenuItem
      decodeMenuItem_encodeMenuItem items
  have horder : decodeList decodeOrderEntry
      (order.map (fun p => Json.arr [.str p.1, .num p.2])) = some order :=
    decodeList_map (fun p : String × ℚ => Json.arr [.str p.1, .num p.2])
      decodeOrderEntry (fun _ => rfl) order
  rw [decodeState, h1]
  simp only [Option.bind_some, asArr, hitems, h2, h3, h4, asStr,
    Option.getD_some, jsFalsy, if_false, horder, Option.bind]
  rw [mapFromList_self order (by simpa using h)]
  simp

theorem menuItemsOk_encodeSnapshot (s : Snapshot)
    (h : s.menuItems ≠ []) : menuItemsOk (encodeSnapshot s) = true := by
  obtain ⟨items, name, loc, order⟩ := s
  rcases items with _ | ⟨i, rest⟩
  · exact absurd rfl h
  · rfl

/-- Claim C2: saving the watched state with a non-empty dish list and
loading the slot back reproduces the same catalog, restaurant name,
restaurant location, and ledger, with the ledger entries in the stored
order (the ledger is a map, so its identities are pairwise distinct). -/
theorem claim_C2_roundtrip (c : AppCore) (slot : SlotContent)
    (hne : c.menuItems ≠ []) (hnd : (c.order.map Prod.fst).Nodup) :
    loadEffect (saveEffect c slot) =
      (LoadResult.loaded (snapshotOf c), saveEffect c slot) := by
  have hsave : saveEffect c slot =
      .wellFormed (encodeSnapshot (snapshotOf c)) := by
    rw [saveEffect, if_neg (by simpa using hne)]
  rw [hsave]
  have hok : menuItemsOk (encodeSnapshot (snapshotOf c)) = true :=
    menuItemsOk_encodeSnapshot _ (by simpa [snapshotOf] using hne)
  have hdec : decodeState (encodeSnapshot (snapshotOf c)) =
      some (snapshotOf c) :=
    decodeState_encodeSnapshot _ (by simpa [snapshotOf] using hnd)
  obtain ⟨fields, hj⟩ : ∃ fields,
      encodeSnapshot (snapshotOf c) = Json.obj fields := ⟨_, rfl⟩
  rw [hj] at hok hdec ⊢
  simp [loadEffect, hok, hdec]

/-- Witness for claim C2 at a concrete one-dish, one-entry state. -/
theorem claim_C2_witness :
    loadEffect (saveEffect
      ⟨[⟨"x", "X", "", "", some "€4", none, some ["Spicy"]⟩], "R", "L",
        [("x", 2)]⟩ SlotContent.absent) =
      (LoadResult.loaded (snapshotOf
        ⟨[⟨"x", "X", "", "", some "€4", none, some ["Spicy"]⟩], "R", "L",
          [("x", 2)]⟩),
       saveEffect
        ⟨[⟨"x", "X", "", "", some "€4", none, some ["Spicy"]⟩], "R", "L",
          [("x", 2)]⟩ SlotContent.absent) :=
  claim_C2_roundtrip
    ⟨[⟨"x", "X", "", "", some "€4", none, some ["Spicy"]⟩], "R", "L",
      [("x", 2)]⟩ SlotContent.absent (by simp) (by simp)
